import Mathlib

/-!
Verification development for the auto-hh-bot repository: a shallow
embedding of the chat webhook controller (`tg_register.py`), the
settings library (`settings_utils.py`), and the cover-letter generator
(`claude_client.py`), with theorems settling the specification claims.

Modelling conventions: Python strings that are parsed or manipulated
character by character are modelled as `List Char` (`PyStr`); strings
that are only compared or concatenated use Lean `String`.  The SQLite
`user_settings` table is modelled as an ordered list of rows (rowid
order).  External calls (Telegram, the HH job board, the LLM) are
modelled as oracles supplied as parameters; Telegram/SQLite transport
is assumed to succeed except where a claim is about its failure.
-/

namespace AutoHH

/-- A Python string at character granularity. -/
abbrev PyStr := List Char

/-- Python `str.strip()` with no argument: drop whitespace from both ends. -/
def pyStrip (s : PyStr) : PyStr :=
  ((s.dropWhile Char.isWhitespace).reverse.dropWhile Char.isWhitespace).reverse

/-- Numeric value of a list of decimal digit characters. -/
def natOfDigits (ds : PyStr) : Nat :=
  ds.foldl (fun n c => n * 10 + (c.toNat - 48)) 0

/-- Python `int(s)` on a string: optional surrounding whitespace, optional
sign, then one or more decimal digits; `none` models the `ValueError`. -/
def pyIntParse (s : PyStr) : Option Int :=
  match pyStrip s with
  | '-' :: ds => if ds ≠ [] ∧ ds.all Char.isDigit then some (-(natOfDigits ds : Int)) else none
  | '+' :: ds => if ds ≠ [] ∧ ds.all Char.isDigit then some (natOfDigits ds : Int) else none
  | ds => if ds ≠ [] ∧ ds.all Char.isDigit then some (natOfDigits ds : Int) else none

/-- Python `str(n)` for an integer, at character granularity. -/
def intToPyStr (n : Int) : PyStr :=
  (toString n).toList

/-- Python `str.isdigit()`: non-empty and all decimal digits (the handler
only ever feeds it ordinary text, so the extra Unicode digit classes of
CPython are not modelled). -/
def pyIsDigit (s : PyStr) : Bool :=
  !s.isEmpty && s.all Char.isDigit

/-! ## Salary rendering (`format_vacancy`, tg_register.py lines 87-93) -/

/-- The `salary` dict of a vacancy: optional `from`, `to` (numbers, possibly
null) and `currency` (the code reads it with default `""`). -/
structure SalaryDict where
  fromAmount : Option Int
  toAmount : Option Int
  currency : Option String
deriving DecidableEq

/-- The value of `v.get("salary")`: absent, present but not a dict, or a dict. -/
inductive SalaryVal where
  | absent
  | notDict
  | dict (d : SalaryDict)
deriving DecidableEq

/-- Python truthiness of an optional number: `None` and `0` are falsy. -/
def pyTruthyInt : Option Int → Bool
  | none => false
  | some n => n != 0

/-- Rendering of an optional int inside an f-string (only used on truthy values). -/
def optIntStr : Option Int → String
  | none => "None"
  | some n => toString n

/-- The salary line of `format_vacancy`: starts as the placeholder and is
replaced only when the salary is a dict with truthy `from`/`to` bounds,
mirroring `if fr and to: ... elif fr: ... elif to: ...`. -/
def salaryLine : SalaryVal → String
  | .absent => "не указана"
  | .notDict => "не указана"
  | .dict d =>
    let fr := d.fromAmount
    let toA := d.toAmount
    let cur := d.currency.getD ""
    if pyTruthyInt fr && pyTruthyInt toA then s!"{optIntStr fr}–{optIntStr toA} {cur}"
    else if pyTruthyInt fr then s!"от {optIntStr fr} {cur}"
    else if pyTruthyInt toA then s!"до {optIntStr toA} {cur}"
    else "не указана"

/-! ## Rotating jobs-page counter (`next_jobs_page`, tg_register.py lines 305-313) -/

/-- One call of `next_jobs_page` on the stored `jobs_page` setting
(`none` = no row).  Mirrors `curr = int(await get_user_setting(...) or 0)`,
`new = curr + 1 if curr < 19 else 0`, `save(..., str(new))`, `return curr`.
Returns `none` when `int()` would raise on a malformed stored string; an
empty stored string is falsy in Python and hence treated as 0. -/
def next_jobs_page (stored : Option PyStr) : Option (Int × PyStr) :=
  let currOpt : Option Int :=
    match stored with
    | none => some 0
    | some s => if s = [] then some 0 else pyIntParse s
  currOpt.map fun curr => (curr, intToPyStr (if curr < 19 then curr + 1 else 0))

/-- Trace of the values returned by `n` successive `next_jobs_page` calls,
starting from the given stored setting; stops early on a parse error. -/
def jobsPageTrace : Nat → Option PyStr → List Int
  | 0, _ => []
  | n + 1, st =>
    match next_jobs_page st with
    | none => []
    | some (p, st2) => p :: jobsPageTrace n (some st2)

/-! ## Per-user settings store (`settings_utils.py` lines 41-68) -/

/-- One row of the `user_settings` table: `(tg_user, key, value)`. -/
abbrev SettingsTable := List (Int × String × String)

/-- Does a row conflict with the `(tg_user, key)` primary key? -/
def rowMatches (u : Int) (k : String) (r : Int × String × String) : Bool :=
  r.1 == u && r.2.1 == k

/-- `save_user_setting`: `INSERT OR REPLACE` on primary key `(tg_user, key)` —
SQLite deletes every conflicting row and inserts the new one (with a fresh
rowid, i.e. at the end of rowid order). -/
def save_user_setting (t : SettingsTable) (u : Int) (k v : String) : SettingsTable :=
  t.filter (fun r => !(rowMatches u k r)) ++ [(u, k, v)]

/-- `get_user_setting`: `SELECT value ... WHERE tg_user = ? AND key = ?`,
`fetchone` — the first matching row in rowid order, or `None`. -/
def get_user_setting (t : SettingsTable) (u : Int) (k : String) : Option String :=
  (t.find? (rowMatches u k)).map (fun r => r.2.2)

/-! ## Multi-value filters (`toggle_multi_value`, tg_register.py lines 295-303) -/

/-- Python `s.split(",")`: split on every comma; an empty string yields one
empty piece and adjacent commas yield empty pieces, as in CPython. -/
def pySplitComma : PyStr → List PyStr
  | [] => [[]]
  | c :: rest =>
    if c = ',' then [] :: pySplitComma rest
    else
      match pySplitComma rest with
      | [] => [[c]]
      | p :: ps => (c :: p) :: ps

/-- Python `",".join(items)`. -/
def joinComma : List PyStr → PyStr
  | [] => []
  | [w] => w
  | w :: rest => w ++ ',' :: joinComma rest

/-- The set comprehension `{v.strip() for v in curr.split(",") if v.strip()}`:
split on commas, strip each piece, keep the non-empty ones.  The Python set
is modelled as a list (possibly with duplicates); all operations on it —
membership, removal, insertion, join — are membership-faithful. -/
def parseItems (s : PyStr) : List PyStr :=
  ((pySplitComma s).map pyStrip).filter (fun p => !p.isEmpty)

/-- `toggle_multi_value` on the stored comma-joined setting (`none` = no row):
parse the current selection, remove the value if present else add it, store
the comma-join, and return the resulting set.  Returns
`(resulting items, new stored string)`. -/
def toggle_multi_value (stored : Option PyStr) (value : PyStr) : List PyStr × PyStr :=
  let curr := stored.getD []
  let items := parseItems curr
  let items2 := if value ∈ items then items.filter (fun x => x ≠ value) else items ++ [value]
  (items2, joinComma items2)

/-! ## Manual-browse session (`run_jobs` lines 164-237 and the `job_next`
branch, tg_register.py lines 857-936) -/

/-- A normalized vacancy snapshot as built by `run_jobs` (id, name, url,
salary, employer, snippet). -/
structure Vacancy where
  id : String
  name : String
  url : String
  salary : SalaryVal
  employer : Option String
  snippet : String
deriving DecidableEq

/-- One entry of the decoded `jobs_json` list: a JSON object (dict) or any
other JSON value — `job_next` skips entries failing `isinstance(_, dict)`. -/
inductive JEntry where
  | dict (v : Vacancy)
  | nonDict
deriving DecidableEq

/-- The `while cursor < len(jobs) and not isinstance(jobs[cursor], dict)`
loop of the `job_next` branch, with explicit fuel (the loop advances the
cursor by one per iteration, so `jobs.length` fuel always suffices). -/
def skipNonDict : Nat → List JEntry → Nat → Nat
  | 0, _, c => c
  | fuel + 1, jobs, c =>
    if h : c < jobs.length then
      match jobs.get ⟨c, h⟩ with
      | .nonDict => skipNonDict fuel jobs (c + 1)
      | .dict _ => c
    else c

/-- The end state of the `pending_jobs` row after one `job_next` callback:
`none` when there is no row or the row is deleted (cursor advanced to or
past the end, before or after skipping non-dict entries), otherwise the row
with the persisted cursor.  Mirrors `cursor = row[1] + 1`, the two
end-of-list checks with `DELETE`, and the two `UPDATE ... SET cursor`
statements (the second persisted value overwrites the first). -/
def jobNext : Option (List JEntry × Nat) → Option (List JEntry × Nat)
  | none => none
  | some (jobs, c0) =>
    let cursor := c0 + 1
    if cursor ≥ jobs.length then none
    else
      let cursor2 := skipNonDict jobs.length jobs cursor
      if cursor2 ≥ jobs.length then none
      else some (jobs, cursor2)

/-- The `pending_jobs` row written by `run_jobs`: no row when the search
returned no postings (the function returns before the `INSERT`), otherwise
the full normalized list serialized with cursor 0 (`INSERT ... VALUES(?, ?, 0)
ON CONFLICT(tg_user) DO UPDATE SET ... cursor = 0`).  `json.dumps` of the
normalized list produces one JSON object per vacancy, hence `.dict` entries. -/
def runJobsRow (vacancies : List Vacancy) : Option (List JEntry × Nat) :=
  if vacancies.isEmpty then none else some (vacancies.map JEntry.dict, 0)

/-- A concrete vacancy used by witnesses. -/
def demoVacancy : Vacancy :=
  ⟨"101", "Engineer", "https://hh.ru/vacancy/101", .absent, none, "build things"⟩

/-! ## Cover-letter generation (`claude_client.py` lines 8-29) and the
`start_auto` batch (tg_register.py lines 629-646) -/

/-- Python `str.strip()` on a Lean `String`. -/
def pyStripStr (s : String) : String :=
  String.mk (pyStrip s.toList)

/-- The fixed prompt template of `generate_cover_letter`. -/
def coverPrompt (vacancy resume : String) : String :=
  "Ты – HR-ассистент. На основе описания вакансии и резюме кандидата "
    ++ "напиши короткое (до 120 слов) сопроводительное письмо, подчеркивая "
    ++ "релевантный опыт и мотивированность.\n\n"
    ++ s!"Описание вакансии:\n{vacancy}\n\n"
    ++ s!"Резюме кандидата:\n{resume}"

/-- `generate_cover_letter`: builds the prompt, performs the single-turn LLM
call (the oracle `llm`; `none` models a transport/API failure raising), and
returns the response text stripped.  No retries and no exception handling
inside the function — a failure propagates to the caller. -/
def generate_cover_letter (llm : String → Option String) (vacancy resume : String) :
    Option String :=
  (llm (coverPrompt vacancy resume)).map pyStripStr

/-- Modelled from the spec: `fetch_vacancies` is called by the `start_auto`
branch (with a comment claiming it lives in `run_jobs`) but is defined
nowhere in the source; per the spec it "fetches up to 20 fresh postings via
the same retrieval path as manual browsing".  It is modelled as returning
the fetched postings list supplied by the retrieval oracle. -/
def fetch_vacancies (fetched : List Vacancy) : List Vacancy := fetched

/-- Observable behaviour of one `start_auto` batch run: the vacancy texts
passed to cover-letter generation, the vacancy ids submitted via
`send_apply`, and the number of successful submissions (`sent`). -/
structure AutoOutcome where
  genCalls : List String
  applyCalls : List String
  sent : Nat
deriving DecidableEq

/-- The `for v in vacancies[:20]` loop of the `start_auto` branch, one
posting at a time.  `cover = await generate_cover_letter(...)` stands
*outside* the `try`, so a generation failure aborts the loop (second
component `false`, partial trace); `send_apply` stands inside the `try`,
so a submission failure (oracle `applyOk` returning false) is logged and
only skips the `sent += 1`. -/
def startAutoLoop (llm : String → Option String) (applyOk : String → Bool)
    (resume : String) : List Vacancy → AutoOutcome × Bool
  | [] => (⟨[], [], 0⟩, true)
  | v :: rest =>
    let vtext := if v.snippet ≠ "" then v.snippet else v.name
    match generate_cover_letter llm vtext resume with
    | none => (⟨[vtext], [], 0⟩, false)
    | some _cover =>
      let applied := applyOk v.id
      let rec2 := startAutoLoop llm applyOk resume rest
      (⟨vtext :: rec2.1.genCalls, v.id :: rec2.1.applyCalls,
        (if applied then 1 else 0) + rec2.1.sent⟩, rec2.2)

/-- The report message sent after the loop: `f"🚀 Автоотклики отправлены: {sent}/20"`. -/
def autoReport (sent : Nat) : String :=
  s!"🚀 Автоотклики отправлены: {sent}/20"

/-- The whole `start_auto` branch after answering the callback: run the loop
over the first 20 fetched postings; when the loop completes, send the report
message; when it aborts (a generation failure propagates out of the handler),
no report is sent (`none`). -/
def start_auto (llm : String → Option String) (applyOk : String → Bool)
    (resume : String) (fetched : List Vacancy) : AutoOutcome × Option String :=
  let run := startAutoLoop llm applyOk resume ((fetch_vacancies fetched).take 20)
  (run.1, if run.2 then some (autoReport run.1.sent) else none)

/-- Twenty concrete postings with ids "0".."19", used by C1's witnesses. -/
def autoVacs : List Vacancy :=
  (List.range 20).map fun i =>
    ⟨toString i, "Engineer", "https://hh.ru/vacancy/x", .absent, none, "snippet"⟩

/-- A submission oracle that fails on exactly three of the twenty ids. -/
def applyOkDemo : String → Bool := fun id => !(["5", "11", "17"].contains id)

/-! ## Webhook dispatch (`telegram_webhook`, tg_register.py lines 594-1105) -/

/-- Outcome of one webhook request, as seen by the HTTP framework. -/
inductive WebResult where
  /-- `HTTPException(status_code=403)` raised before anything else. -/
  | forbidden
  /-- A dict returned by the handler (`return {key: val}`). -/
  | json (key : String) (val : Bool)
  /-- The handler falls off the end without a `return`: a null body. -/
  | empty
  /-- An unhandled exception inside a branch — a framework-level 5xx. -/
  | raised
deriving DecidableEq

/-- The literal `{"ok": True}` returned by every handled branch. -/
def okJson : WebResult := .json "ok" true

/-- Side effects at call-kind granularity (payloads are not tracked; branch
traces follow each branch's main path — the theorems about effects concern
only the rejected-request case, where no effect occurs at all). -/
inductive Effect where
  | userRowInsert
  | tgSend
  | tgEdit
  | tgDelete
  | tgAnswer
  | dbWrite
  | hhCall
  | llmCall
deriving DecidableEq

/-- Oracles for the external conditions a callback branch can meet. -/
structure CbEnv where
  llmOk : Bool
  applyOk : Bool
  jobFound : Bool
  favsEmpty : Bool
  jobsEmpty : Bool
  searchOk : Bool
deriving DecidableEq

/-- Python `s.startswith(pre)`. -/
def pyStartsWith (pre s : PyStr) : Bool := pre.isPrefixOf s

/-- Python `s.split("_")[-1]`: the suffix after the last underscore. -/
def lastSegmentUnderscore (s : PyStr) : PyStr :=
  ((s.reverse.takeWhile (fun c => c ≠ '_')).reverse)

/-- Is `data.split("_", 1)[1]` one of the filter keys the `filter_` branch
returns for?  Any other `filter_*` data falls through the branch without a
`return`. -/
def filterHandled (fkey : PyStr) : Bool :=
  fkey = "region".toList || fkey = "salary".toList || fkey = "keyword".toList
    || fkey = "schedule".toList || fkey = "work_format".toList
    || fkey = "employment_type".toList

/-- The callback-query dispatch of `telegram_webhook`, branch for branch in
source order (the second, duplicated `fav_del_` block at lines 736-750 is
unreachable and not modelled).  Returns the handler's result and the effect
trace of the branch taken; branches parsing `int(data.split("_")[-1])` raise
on a non-numeric segment. -/
def handleCallback (env : CbEnv) (data : PyStr) : WebResult × List Effect :=
  if data = "back_menu".toList then
    (okJson, [.tgDelete, .tgEdit, .tgAnswer])
  else if data = "start_auto".toList then
    (if env.llmOk then (okJson, [.tgAnswer, .hhCall, .hhCall, .llmCall, .hhCall, .tgSend])
     else (.raised, [.tgAnswer, .hhCall, .hhCall, .llmCall]))
  else if data = "start_manual".toList then
    (if env.searchOk then (okJson, [.tgAnswer, .dbWrite, .hhCall, .dbWrite, .tgSend])
     else (.raised, [.tgAnswer, .dbWrite, .hhCall]))
  else if data = "open_settings".toList then (okJson, [.tgEdit, .tgAnswer])
  else if data = "open_resumes".toList then (okJson, [.hhCall, .tgEdit])
  else if data = "open_favorites".toList then
    (if env.favsEmpty then (okJson, [.tgAnswer])
     else (okJson, [.tgDelete, .tgSend, .tgAnswer]))
  else if data = "fav_prev".toList then
    (if env.favsEmpty then (okJson, [.tgAnswer]) else (okJson, [.tgEdit, .tgAnswer]))
  else if data = "fav_next".toList then (okJson, [.tgEdit, .tgAnswer])
  else if pyStartsWith "fav_del_".toList data then
    (match pyIntParse (lastSegmentUnderscore data) with
     | none => (.raised, [])
     | some _ => (okJson, [.dbWrite, .tgAnswer, .tgEdit, .tgAnswer]))
  else if data = "show_filters".toList then (okJson, [.hhCall, .tgEdit, .tgAnswer])
  else if data = "back_settings".toList then (okJson, [.tgEdit, .tgAnswer])
  else if pyStartsWith "filter_".toList data && filterHandled (data.drop 7) then
    (if data.drop 7 = "region".toList || data.drop 7 = "salary".toList
        || data.drop 7 = "keyword".toList then
      (okJson, [.dbWrite, .tgEdit])
     else (okJson, [.tgEdit]))
  else if pyStartsWith "schedule_suggest_".toList data
      || pyStartsWith "work_format_suggest_".toList data
      || pyStartsWith "employment_type_suggest_".toList data then
    (okJson, [.dbWrite, .tgEdit, .tgAnswer])
  else if pyStartsWith "region_suggest_".toList data then
    (match pyIntParse (lastSegmentUnderscore data) with
     | none => (.raised, [])
     | some _ => (okJson, [.dbWrite, .tgEdit, .tgAnswer]))
  else if pyStartsWith "select_resume_".toList data then (okJson, [.dbWrite, .tgAnswer])
  else if data = "find_jobs".toList then (okJson, [.tgAnswer, .tgSend])
  else if data = "job_prev".toList then
    (if env.jobsEmpty then (okJson, [.tgAnswer]) else (okJson, [.tgEdit, .tgAnswer]))
  else if data = "job_next".toList then (okJson, [.tgAnswer, .dbWrite, .tgDelete, .tgSend])
  else if pyStartsWith "job_apply_".toList data then
    (if !env.jobFound then (okJson, [.tgAnswer])
     else if !env.llmOk then (.raised, [.hhCall, .llmCall])
     else if !env.applyOk then (.raised, [.hhCall, .llmCall, .hhCall])
     else (okJson, [.hhCall, .llmCall, .hhCall, .tgAnswer]))
  else if pyStartsWith "job_fav_".toList data then
    (match pyIntParse (lastSegmentUnderscore data) with
     | none => (.raised, [])
     | some _ => (okJson, [.dbWrite, .tgAnswer]))
  else (.empty, [])

/-- Python truthiness of an optional string: `None` and `""` are falsy. -/
def pyTruthyOpt : Option PyStr → Bool
  | none => false
  | some s => !s.isEmpty

/-- Observable outcome of the free-text branch: the handler's result, the
ordered `user_settings` writes (`("pending", none)` is `set_pending(uid,
None)`, `(k, some v)` is `save_user_setting(uid, k, v)`), and whether the
`finally` block deleted the user's input message. -/
structure TextOutcome where
  resp : WebResult
  writes : List (String × Option PyStr)
  deletedInput : Bool
deriving DecidableEq

/-- The free-text branch of `telegram_webhook` (lines 999-1105): strip the
text; the four recognized commands each clear pending first and return;
any other text (including unrecognized `/`-texts, which fall out of the
command block without a `return`) reaches the pending-field checks; the
`finally` block deletes the input message whenever pending was truthy at
entry.  `/jobs` runs `run_jobs`, whose page-counter write precedes the
search call (`searchOk = false` models `raise_for_status` raising). -/
def handleTextCore (pending : Option PyStr) (jobsPage : Option PyStr)
    (searchOk : Bool) (text : PyStr) (deleted : Bool) : TextOutcome :=
  if text = "/start".toList then
    { resp := okJson, writes := [("pending", none)], deletedInput := deleted }
  else if text = "/jobs".toList then
    match next_jobs_page jobsPage with
    | none => { resp := .raised, writes := [("pending", none)], deletedInput := deleted }
    | some (_prior, newSt) =>
      if searchOk then
        { resp := okJson, writes := [("pending", none), ("jobs_page", some newSt)],
          deletedInput := deleted }
      else
        { resp := .raised, writes := [("pending", none), ("jobs_page", some newSt)],
          deletedInput := deleted }
  else if text = "/menu".toList then
    { resp := okJson, writes := [("pending", none)], deletedInput := deleted }
  else if text = "/settings".toList then
    { resp := okJson, writes := [("pending", none)], deletedInput := deleted }
  else if pending = some "region".toList then
    { resp := okJson, writes := [("region", some text), ("pending", none)],
      deletedInput := deleted }
  else if pending = some "salary".toList && pyIsDigit text then
    { resp := okJson, writes := [("salary", some text), ("pending", none)],
      deletedInput := deleted }
  else if pending = some "keyword".toList then
    { resp := okJson, writes := [("keyword", some text), ("pending", none)],
      deletedInput := deleted }
  else
    { resp := .empty, writes := [], deletedInput := deleted }

/-- Entry point of the free-text branch: `text = msg.text.strip()` and the
`finally`-block deletion flag `if pending:` are computed once at the top
(`tokenExists` only affects which introduction message `/start` sends, not
any modelled observable). -/
def handleText (tokenExists : Bool) (pending : Option PyStr) (jobsPage : Option PyStr)
    (searchOk : Bool) (raw : PyStr) : TextOutcome :=
  handleTextCore pending jobsPage searchOk (pyStrip raw) (pyTruthyOpt pending)

/-- The pending marker after applying a write list on top of an initial
value: the last `("pending", _)` write wins. -/
def finalPending (p : Option PyStr) (ws : List (String × Option PyStr)) : Option PyStr :=
  ws.foldl (fun acc w => if w.1 = "pending" then w.2 else acc) p

/-- One chat-platform update, as dispatched by the webhook handler. -/
inductive TgUpdate where
  | callback (data : PyStr)
  | message (raw : PyStr)
  /-- An update with neither a callback query nor a text message. -/
  | noText
deriving DecidableEq

/-- The webhook endpoint `POST /bot<token>`: the path token is compared with
the configured bot token before anything else — a mismatch raises
`HTTPException(403)` with no side effects; otherwise the update is
dispatched.  Both the callback branch and the text branch first ensure the
user row exists (`INSERT OR IGNORE INTO users`). -/
def telegram_webhook (token botToken : String) (env : CbEnv) (tokenExists : Bool)
    (pending : Option PyStr) (jobsPage : Option PyStr) (u : TgUpdate) :
    WebResult × List Effect :=
  if token ≠ botToken then (.forbidden, [])
  else
    match u with
    | .callback data =>
      let r := handleCallback env data
      (r.1, .userRowInsert :: r.2)
    | .message raw =>
      let o := handleText tokenExists pending jobsPage env.searchOk raw
      (o.resp, .userRowInsert :: (if o.deletedInput then [Effect.tgDelete] else []))
    | .noText => (.empty, [])

/-- A concrete oracle environment for witnesses. -/
def envDemo : CbEnv := ⟨true, true, true, false, false, true⟩

/-- Holds when a result, if it is a JSON body at all, is `{"ok": true}`. -/
def resultOkProp : WebResult → Prop
  | .json k v => k = "ok" ∧ v = true
  | _ => True

/-! ## Vacancy description rendering (`format_vacancy` lines 95-114,
`strip_html` lines 261-263, `wrap_long` lines 265-267) -/

/-- The substitution `re.sub(r"<[^>]+>", "", text)`: scan left to right; at
each `<` followed by one or more non-`>` characters and a `>`, remove the
whole tag and continue after it; otherwise keep the character.  Fuel is the
string length (every step consumes at least one character). -/
def stripHtmlAux : Nat → PyStr → PyStr
  | 0, s => s
  | _ + 1, [] => []
  | fuel + 1, c :: rest =>
    if c = '<' then
      let inner := rest.takeWhile (fun x => x ≠ '>')
      if inner ≠ [] ∧ rest.drop inner.length ≠ [] then
        stripHtmlAux fuel (rest.drop (inner.length + 1))
      else c :: stripHtmlAux fuel rest
    else c :: stripHtmlAux fuel rest

/-- `strip_html`: crude tag removal via the regex above. -/
def strip_html (s : PyStr) : PyStr := stripHtmlAux s.length s

/-- textwrap's whitespace normalization (`replace_whitespace=True` default):
every whitespace character becomes a space. -/
def normWs (s : PyStr) : PyStr := s.map (fun c => if c.isWhitespace then ' ' else c)

/-- Split into maximal runs of spaces / of non-space characters — the chunks
`textwrap` packs into lines.  (Hyphen-aware word splitting, a further
refinement of CPython's chunking, is not modelled; the descriptions the
theorems evaluate contain no hyphens.) -/
def chunkRuns : Nat → PyStr → List PyStr
  | 0, _ => []
  | _ + 1, [] => []
  | fuel + 1, c :: rest =>
    let run := (c :: rest).takeWhile (fun d => (d == ' ') == (c == ' '))
    run :: chunkRuns fuel ((c :: rest).drop run.length)

/-- A chunk consisting of whitespace only (`chunk.strip() == ''`). -/
def isSpaceChunk (w : PyStr) : Bool := w.all (fun c => c == ' ')

/-- Greedy packing of chunks into the current line while the accumulated
length stays within the width; returns the line's chunks and the rest. -/
def fillLine (width : Nat) : List PyStr → Nat → List PyStr × List PyStr
  | [], _ => ([], [])
  | w :: rest, curLen =>
    if curLen + w.length ≤ width then
      let r := fillLine width rest (curLen + w.length)
      (w :: r.1, r.2)
    else ([], w :: rest)

/-- The line-building loop of `textwrap._wrap_chunks` with the default
options used by `wrap_long` (`drop_whitespace=True`, `break_long_words=True`):
drop a leading space chunk on every line after the first, fill greedily,
break an over-long word to fill the remaining room, drop a trailing space
chunk, and emit the line if anything is left. -/
def wrapChunksAux (width : Nat) : Nat → List PyStr → Bool → List PyStr
  | 0, _, _ => []
  | fuel + 1, chunks, isFirst =>
    match chunks with
    | [] => []
    | c :: restChunks =>
      let chunks1 := if !isFirst && isSpaceChunk c then restChunks else c :: restChunks
      let fl := fillLine width chunks1 0
      let curLen := (fl.1.map List.length).sum
      let broken : List PyStr × List PyStr :=
        match fl.2 with
        | w :: rest2 =>
          if w.length > width then
            (fl.1 ++ [w.take (width - curLen)], w.drop (width - curLen) :: rest2)
          else (fl.1, fl.2)
        | [] => (fl.1, [])
      let line := match broken.1.getLast? with
        | some lw => if isSpaceChunk lw then broken.1.dropLast else broken.1
        | none => broken.1
      if line.isEmpty then wrapChunksAux width fuel broken.2 false
      else line.flatten :: wrapChunksAux width fuel broken.2 false

/-- `textwrap.wrap(text, width)` with default options (model per above). -/
def pyWrap (width : Nat) (s : PyStr) : List PyStr :=
  let chunks := chunkRuns s.length (normWs s)
  wrapChunksAux width (s.length + chunks.length + 1) chunks true

/-- Python `"\n".join(lines)`. -/
def joinNl : List PyStr → PyStr
  | [] => []
  | [w] => w
  | w :: rest => w ++ '\n' :: joinNl rest

/-- `wrap_long`: `"\n".join(textwrap.wrap(text, width=60))`. -/
def wrap_long (text : PyStr) : PyStr := joinNl (pyWrap 60 text)

/-- The description part of `format_vacancy` for a string-valued snippet:
`full = strip_html(raw)`; `descr = wrap_long(full[:1200]) + ("…" if
len(full) > 1200 else "")`. -/
def renderDescr (raw : PyStr) : PyStr :=
  wrap_long ((strip_html raw).take 1200) ++
    (if (strip_html raw).length > 1200 then ['…'] else [])

/-- Remove the newlines inserted by the 60-character line wrapping. -/
def removeNewlines (s : PyStr) : PyStr := s.filter (fun c => c ≠ '\n')

/-- A plain-text description of `n` letters. -/
def aChars (n : Nat) : PyStr := List.replicate n 'a'

end AutoHH

namespace AutoHH

/-! ## Theorems -/

/-- C7: vacancy salary rendering has the four specified cases: both bounds
give an en-dash range, a single bound gives the от/до form, and an absent
or non-dict salary gives the placeholder. -/
theorem salary_formatting_cases :
    salaryLine (.dict ⟨some 100, some 200, some "RUR"⟩) = "100–200 RUR" ∧
    salaryLine (.dict ⟨some 100, none, some "RUR"⟩) = "от 100 RUR" ∧
    salaryLine (.dict ⟨none, some 200, some "RUR"⟩) = "до 200 RUR" ∧
    salaryLine .absent = "не указана" ∧
    salaryLine .notDict = "не указана" := by
  refine ⟨by decide, by decide, by decide, rfl, rfl⟩

/-- C10: a salary bound equal to 0 is treated as absent, because the code
tests the bounds with Python truthiness (`if fr and to`): `from=0, to=200`
renders the до-form, and a dict whose bounds are both 0 or absent renders
the placeholder.  Shown for two currencies to exhibit the `{currency}` slot. -/
theorem salary_zero_bound_truthiness :
    salaryLine (.dict ⟨some 0, some 200, some "RUR"⟩) = "до 200 RUR" ∧
    salaryLine (.dict ⟨some 0, some 200, some "EUR"⟩) = "до 200 EUR" ∧
    salaryLine (.dict ⟨some 0, some 0, some "RUR"⟩) = "не указана" ∧
    salaryLine (.dict ⟨none, none, some "RUR"⟩) = "не указана" ∧
    salaryLine (.dict ⟨some 0, none, some "RUR"⟩) = "не указана" := by
  refine ⟨by decide, by decide, by decide, by decide, by decide⟩

/-- C6: each `next_jobs_page` call returns the prior counter value (0 for a
fresh user) and stores the prior value plus one, wrapping the stored value
back to 0 once the prior value reaches 19; 21 successive calls from a fresh
state return `0,1,...,19,0`. -/
theorem jobs_page_cycle :
    jobsPageTrace 21 none =
      [0, 1, 2, 3, 4, 5, 6, 7, 8, 9, 10, 11, 12, 13, 14, 15, 16, 17, 18, 19, 0] ∧
    (∀ st p st2, next_jobs_page st = some (p, st2) →
      st2 = intToPyStr (if p < 19 then p + 1 else 0)) ∧
    (∀ p st2, next_jobs_page none = some (p, st2) → p = 0) := by
  refine ⟨by decide, ?_, ?_⟩
  · intro st p st2 h
    simp only [next_jobs_page, Option.map_eq_some'] at h
    obtain ⟨a, _, heq⟩ := h
    injection heq with h1 h2
    subst h1
    exact h2.symm
  · intro p st2 h
    simp only [next_jobs_page, Option.map_eq_some'] at h
    obtain ⟨a, ha, heq⟩ := h
    injection ha with ha2
    injection heq with h1 h2
    subst ha2
    exact h1.symm

/-- Witness for C6: the step property evaluated at a concrete stored value. -/
theorem jobs_page_cycle_witness :
    ['6'] = intToPyStr (if (5 : Int) < 19 then (5 : Int) + 1 else 0) ∧ (0 : Int) = 0 :=
  ⟨jobs_page_cycle.2.1 (some ['5']) 5 ['6'] (by decide),
   jobs_page_cycle.2.2 0 (intToPyStr 1) (by decide)⟩

/-- Any element surviving `filter (fun r => !(rowMatches u k r))` fails the key match. -/
theorem not_rowMatches_of_mem_filter {t : SettingsTable} {u : Int} {k : String}
    {r : Int × String × String}
    (hr : r ∈ t.filter (fun r => !(rowMatches u k r))) : rowMatches u k r = false := by
  simpa using List.of_mem_filter hr

/-- C8: writing a setting twice for the same `(user, key)` leaves exactly one
row for that pair, and `get_user_setting` returns the latest value — the
second write fully overwrites the first. -/
theorem setting_write_overwrites (t : SettingsTable) (u : Int) (k v1 v2 : String) :
    ((save_user_setting (save_user_setting t u k v1) u k v2).filter
      (rowMatches u k)).length = 1 ∧
    get_user_setting (save_user_setting (save_user_setting t u k v1) u k v2) u k
      = some v2 := by
  have hv1 : rowMatches u k (u, k, v1) = true := by simp [rowMatches]
  have hv2 : rowMatches u k (u, k, v2) = true := by simp [rowMatches]
  have hAfil : (t.filter (fun r => !(rowMatches u k r))).filter (rowMatches u k) = [] := by
    rw [List.filter_eq_nil_iff]
    intro r hr
    simp [not_rowMatches_of_mem_filter hr]
  have hAfil2 : (t.filter (fun r => !(rowMatches u k r))).filter
      (fun r => !(rowMatches u k r)) = t.filter (fun r => !(rowMatches u k r)) := by
    rw [List.filter_eq_self]
    intro r hr
    simp [not_rowMatches_of_mem_filter hr]
  have hs2 : save_user_setting (save_user_setting t u k v1) u k v2
      = t.filter (fun r => !(rowMatches u k r)) ++ [(u, k, v2)] := by
    simp only [save_user_setting, List.filter_append, hAfil2]
    simp [hv1]
  constructor
  · rw [hs2, List.filter_append, hAfil]
    simp [hv2]
  · rw [get_user_setting, hs2, List.find?_append]
    have hfind : (t.filter (fun r => !(rowMatches u k r))).find? (rowMatches u k) = none := by
      rw [List.find?_eq_none]
      intro r hr
      simp [not_rowMatches_of_mem_filter hr]
    rw [hfind]
    simp [hv2]

/-- Witness for C8: the overwrite property applied at a concrete table and values. -/
theorem setting_write_overwrites_witness :
    ((save_user_setting (save_user_setting [] 7 "region" "5") 7 "region" "8").filter
      (rowMatches 7 "region")).length = 1 ∧
    get_user_setting (save_user_setting (save_user_setting [] 7 "region" "5") 7 "region" "8")
      7 "region" = some "8" :=
  setting_write_overwrites [] 7 "region" "5" "8"

/-! ### Lemmas about splitting, stripping and joining (for `toggle_multi_value`) -/

/-- Dropping a matched run twice is the same as dropping it once. -/
theorem dropWhile_self_idem (p : Char → Bool) (l : PyStr) :
    (l.dropWhile p).dropWhile p = l.dropWhile p := by
  induction l with
  | nil => rfl
  | cons a l2 ih =>
    by_cases h : p a
    · simp only [List.dropWhile_cons, h, if_true]
      exact ih
    · simp [List.dropWhile_cons, h]

/-- A character of the stripped string is a character of the original. -/
theorem mem_of_mem_pyStrip {c : Char} {s : PyStr} (h : c ∈ pyStrip s) : c ∈ s := by
  unfold pyStrip at h
  rw [List.mem_reverse] at h
  have h2 := (List.dropWhile_sublist _).mem h
  rw [List.mem_reverse] at h2
  exact (List.dropWhile_sublist _).mem h2

/-- The head of a dropWhile result does not satisfy the predicate. -/
theorem head_dropWhile_false (p : Char → Bool) (l : PyStr) :
    ∀ x, (l.dropWhile p).head? = some x → p x = false := by
  induction l with
  | nil => intro x h; simp at h
  | cons a l2 ih =>
    intro x h
    by_cases hp : p a
    · rw [List.dropWhile_cons, if_pos hp] at h
      exact ih x h
    · rw [List.dropWhile_cons, if_neg hp] at h
      injection h with h2
      subst h2
      simp [hp]

/-- A list whose head fails the predicate is unchanged by dropWhile. -/
theorem dropWhile_eq_self_of_head (p : Char → Bool) (l : PyStr)
    (h : ∀ x, l.head? = some x → p x = false) : l.dropWhile p = l := by
  cases l with
  | nil => rfl
  | cons a l2 =>
    rw [List.dropWhile_cons, if_neg]
    simp [h a rfl]

/-- If dropWhile leaves something, the last element is unchanged. -/
theorem getLast?_dropWhile (p : Char → Bool) (l : PyStr)
    (h : l.dropWhile p ≠ []) : (l.dropWhile p).getLast? = l.getLast? := by
  induction l with
  | nil => simp [List.dropWhile] at h
  | cons a l2 ih =>
    by_cases hp : p a
    · rw [List.dropWhile_cons, if_pos hp] at h ⊢
      have hl2 : l2 ≠ [] := by
        intro he
        subst he
        simp [List.dropWhile] at h
      rw [ih h]
      cases l2 with
      | nil => exact absurd rfl hl2
      | cons b l3 => rw [List.getLast?_cons_cons]
    · rw [List.dropWhile_cons, if_neg hp]

/-- Stripping is idempotent. -/
theorem pyStrip_idem (s : PyStr) : pyStrip (pyStrip s) = pyStrip s := by
  unfold pyStrip
  have hleft : ((((s.dropWhile Char.isWhitespace).reverse.dropWhile
      Char.isWhitespace).reverse).dropWhile Char.isWhitespace)
      = ((s.dropWhile Char.isWhitespace).reverse.dropWhile Char.isWhitespace).reverse := by
    apply dropWhile_eq_self_of_head
    intro x hx
    by_cases hu : (s.dropWhile Char.isWhitespace).reverse.dropWhile Char.isWhitespace = []
    · rw [hu] at hx
      simp at hx
    · rw [List.head?_reverse] at hx
      rw [getLast?_dropWhile _ _ hu, List.getLast?_reverse] at hx
      exact head_dropWhile_false _ _ x hx
  rw [hleft, List.reverse_reverse, dropWhile_self_idem]

/-- Unfolding lemma: splitting after a leading comma. -/
theorem pySplitComma_comma_cons (rest : PyStr) :
    pySplitComma (',' :: rest) = [] :: pySplitComma rest := rfl

/-- Unfolding lemma: splitting after a leading non-comma character. -/
theorem pySplitComma_cons (c : Char) (rest : PyStr) (hc : ¬(c = ',')) :
    pySplitComma (c :: rest) = match pySplitComma rest with
      | [] => [[c]]
      | p :: ps => (c :: p) :: ps := by
  simp [pySplitComma, hc]

/-- No piece of a comma split contains a comma. -/
theorem pySplitComma_no_comma (s : PyStr) : ∀ p ∈ pySplitComma s, ',' ∉ p := by
  induction s with
  | nil =>
    intro p hp
    simp [pySplitComma] at hp
    simp [hp]
  | cons c rest ih =>
    intro p hp
    by_cases hc : c = ','
    · subst hc
      rw [pySplitComma_comma_cons] at hp
      rcases List.mem_cons.mp hp with h | h
      · simp [h]
      · exact ih p h
    · rw [pySplitComma_cons c rest hc] at hp
      cases hrec : pySplitComma rest with
      | nil =>
        rw [hrec] at hp
        simp at hp
        subst hp
        intro hmem
        simp at hmem
        exact hc hmem.symm
      | cons q qs =>
        rw [hrec] at hp
        rcases List.mem_cons.mp hp with h | h
        · subst h
          intro hmem
          rcases List.mem_cons.mp hmem with h2 | h2
          · exact hc h2.symm
          · exact ih q (hrec ▸ List.mem_cons_self q qs) h2
        · exact ih p (hrec ▸ List.mem_cons_of_mem q h)

/-- Splitting a comma-free string yields that single piece. -/
theorem pySplitComma_single (w : PyStr) (hw : ',' ∉ w) : pySplitComma w = [w] := by
  induction w with
  | nil => rfl
  | cons c rest ih =>
    have hc : ¬(c = ',') := by
      intro h
      exact hw (h ▸ List.mem_cons_self c rest)
    have hrest : ',' ∉ rest := fun h => hw (List.mem_cons_of_mem _ h)
    rw [pySplitComma_cons c rest hc, ih hrest]

/-- Splitting distributes over a leading comma-free piece. -/
theorem pySplitComma_append (w t : PyStr) (hw : ',' ∉ w) :
    pySplitComma (w ++ ',' :: t) = w :: pySplitComma t := by
  induction w with
  | nil =>
    rw [List.nil_append, pySplitComma_comma_cons]
  | cons c rest ih =>
    have hc : ¬(c = ',') := by
      intro h
      exact hw (h ▸ List.mem_cons_self c rest)
    have hrest : ',' ∉ rest := fun h => hw (List.mem_cons_of_mem _ h)
    rw [List.cons_append, pySplitComma_cons c _ hc, ih hrest]

/-- A list of clean items (comma-free, strip-invariant, non-empty) survives a
join/parse round trip unchanged. -/
theorem parseItems_joinComma (L : List PyStr)
    (h : ∀ w ∈ L, ',' ∉ w ∧ pyStrip w = w ∧ w ≠ []) :
    parseItems (joinComma L) = L := by
  induction L with
  | nil => rfl
  | cons w rest ih =>
    obtain ⟨hw, hstrip, hne⟩ := h w (List.mem_cons_self w rest)
    cases rest with
    | nil =>
      show parseItems (joinComma [w]) = [w]
      unfold parseItems
      rw [show joinComma [w] = w from rfl, pySplitComma_single w hw]
      simp [hstrip, hne]
    | cons w2 rest2 =>
      have hrest : ∀ x ∈ w2 :: rest2, ',' ∉ x ∧ pyStrip x = x ∧ x ≠ [] :=
        fun x hx => h x (List.mem_cons_of_mem w hx)
      show parseItems (w ++ ',' :: joinComma (w2 :: rest2)) = w :: w2 :: rest2
      unfold parseItems
      rw [pySplitComma_append w _ hw]
      rw [List.map_cons, List.filter_cons]
      simp only [hstrip, hne]
      rw [if_pos (by simp [hne])]
      have := ih hrest
      unfold parseItems at this
      rw [this]

/-- Every item produced by `parseItems` is clean: comma-free, strip-invariant
and non-empty. -/
theorem parseItems_clean (s : PyStr) :
    ∀ w ∈ parseItems s, ',' ∉ w ∧ pyStrip w = w ∧ w ≠ [] := by
  intro w hw
  unfold parseItems at hw
  have hmem := List.mem_of_mem_filter hw
  have hkeep := List.of_mem_filter hw
  obtain ⟨p, hp, hps⟩ := List.mem_map.mp hmem
  refine ⟨?_, ?_, ?_⟩
  · intro hcm
    subst hps
    exact pySplitComma_no_comma s p hp (mem_of_mem_pyStrip hcm)
  · subst hps
    exact pyStrip_idem p
  · intro hwnil
    rw [hwnil] at hkeep
    simp at hkeep

/-- C9 (amended): double application of `toggle_multi_value` with the same
value restores the stored set, provided the value is clean — non-empty,
comma-free, and invariant under whitespace stripping.  For such values the
stored comma-joined string parses back to exactly the toggled set; the
conclusion is stated as membership equivalence because the Python set is
unordered. -/
theorem toggle_snd_eq (stored : Option PyStr) (value : PyStr) :
    (toggle_multi_value stored value).2 =
      joinComma (if value ∈ parseItems (stored.getD []) then
        (parseItems (stored.getD [])).filter (fun x => x ≠ value)
      else parseItems (stored.getD []) ++ [value]) := rfl

/-- C9 (amended): double application of `toggle_multi_value` with the same
value restores the stored set, provided the value is clean — non-empty,
comma-free, and invariant under whitespace stripping.  For such values the
stored comma-joined string parses back to exactly the toggled set; the
conclusion is stated as membership equivalence because the Python set is
unordered. -/
theorem toggle_double_restores (value : PyStr)
    (hstrip : pyStrip value = value) (hne : value ≠ []) (hcomma : ',' ∉ value)
    (stored : Option PyStr) (x : PyStr) :
    x ∈ parseItems ((toggle_multi_value
        (some ((toggle_multi_value stored value).2)) value).2) ↔
      x ∈ parseItems (stored.getD []) := by
  have hvclean : ',' ∉ value ∧ pyStrip value = value ∧ value ≠ [] := ⟨hcomma, hstrip, hne⟩
  have hitems := parseItems_clean (stored.getD [])
  by_cases hmem : value ∈ parseItems (stored.getD [])
  · -- first toggle removes, second adds back
    have hfclean : ∀ w ∈ (parseItems (stored.getD [])).filter (fun x => x ≠ value),
        ',' ∉ w ∧ pyStrip w = w ∧ w ≠ [] :=
      fun w hw => hitems w (List.mem_of_mem_filter hw)
    have h1 : (toggle_multi_value stored value).2
        = joinComma ((parseItems (stored.getD [])).filter (fun x => x ≠ value)) := by
      rw [toggle_snd_eq, if_pos hmem]
    have hparse1 : parseItems (joinComma
        ((parseItems (stored.getD [])).filter (fun x => x ≠ value)))
        = (parseItems (stored.getD [])).filter (fun x => x ≠ value) :=
      parseItems_joinComma _ hfclean
    have hnotin : value ∉ (parseItems (stored.getD [])).filter (fun x => x ≠ value) := by
      intro hv
      have := List.of_mem_filter hv
      simp at this
    have h2 : (toggle_multi_value (some ((toggle_multi_value stored value).2)) value).2
        = joinComma ((parseItems (stored.getD [])).filter (fun x => x ≠ value) ++ [value]) := by
      rw [h1, toggle_snd_eq, Option.getD_some, hparse1, if_neg hnotin]
    have hclean2 : ∀ w ∈ (parseItems (stored.getD [])).filter (fun x => x ≠ value) ++ [value],
        ',' ∉ w ∧ pyStrip w = w ∧ w ≠ [] := by
      intro w hw
      rcases List.mem_append.mp hw with h | h
      · exact hfclean w h
      · simp at h
        subst h
        exact hvclean
    rw [h2, parseItems_joinComma _ hclean2]
    constructor
    · intro hx
      rcases List.mem_append.mp hx with h | h
      · exact List.mem_of_mem_filter h
      · simp at h
        subst h
        exact hmem
    · intro hx
      by_cases hxv : x = value
      · subst hxv
        exact List.mem_append.mpr (Or.inr (by simp))
      · exact List.mem_append.mpr (Or.inl (List.mem_filter.mpr ⟨hx, by simp [hxv]⟩))
  · -- first toggle adds, second removes it again
    have haclean : ∀ w ∈ parseItems (stored.getD []) ++ [value],
        ',' ∉ w ∧ pyStrip w = w ∧ w ≠ [] := by
      intro w hw
      rcases List.mem_append.mp hw with h | h
      · exact hitems w h
      · simp at h
        subst h
        exact hvclean
    have h1 : (toggle_multi_value stored value).2
        = joinComma (parseItems (stored.getD []) ++ [value]) := by
      rw [toggle_snd_eq, if_neg hmem]
    have hparse1 : parseItems (joinComma (parseItems (stored.getD []) ++ [value]))
        = parseItems (stored.getD []) ++ [value] :=
      parseItems_joinComma _ haclean
    have hin : value ∈ parseItems (stored.getD []) ++ [value] :=
      List.mem_append.mpr (Or.inr (by simp))
    have h2 : (toggle_multi_value (some ((toggle_multi_value stored value).2)) value).2
        = joinComma ((parseItems (stored.getD []) ++ [value]).filter (fun x => x ≠ value)) := by
      rw [h1, toggle_snd_eq, Option.getD_some, hparse1, if_pos hin]
    have hfeq : (parseItems (stored.getD []) ++ [value]).filter (fun x => x ≠ value)
        = parseItems (stored.getD []) := by
      rw [List.filter_append]
      have h3 : (parseItems (stored.getD [])).filter (fun x => x ≠ value)
          = parseItems (stored.getD []) := by
        rw [List.filter_eq_self]
        intro a ha
        have hav : a ≠ value := fun h => hmem (h ▸ ha)
        simp [hav]
      have h4 : ([value] : List PyStr).filter (fun x => x ≠ value) = [] := by simp
      rw [h3, h4, List.append_nil]
    rw [h2, hfeq, parseItems_joinComma _ hitems]

/-- Witness for C9's amended theorem: toggling "office" twice over the stored
selection "office,remote" leaves membership of "x" unchanged. -/
theorem toggle_double_restores_witness :
    ("x".toList ∈ parseItems ((toggle_multi_value
        (some ((toggle_multi_value (some "office,remote".toList) "office".toList).2))
        "office".toList).2)) ↔
      ("x".toList ∈ parseItems ((some "office,remote".toList).getD [])) :=
  toggle_double_restores "office".toList (by decide) (by decide) (by decide)
    (some "office,remote".toList) "x".toList

/-- Counterexample for C9 as stated: toggling the value `" office "` (not
strip-invariant) twice from an empty selection does not restore the stored
set — the stripped form "office" ends up stored even though the set started
empty. -/
theorem toggle_double_counterexample :
    ("office".toList ∈ parseItems ((toggle_multi_value
        (some ((toggle_multi_value none " office ".toList).2)) " office ".toList).2)) ∧
      "office".toList ∉ parseItems ((none : Option PyStr).getD []) := by
  constructor
  · decide
  · decide

/-- C2: while a `pending_jobs` row exists its cursor is within
`[0, len(jobs_json))`: the job-retrieval flow creates the row with cursor 0
and a non-empty list, and every `job_next` advance either persists a cursor
strictly below the list length or deletes the row (also after skipping
non-dict entries). -/
theorem pending_jobs_cursor_in_range :
    (∀ vacancies l c, runJobsRow vacancies = some (l, c) → c = 0 ∧ 0 < l.length) ∧
    (∀ st l c, jobNext st = some (l, c) → c < l.length) := by
  constructor
  · intro vacancies l c h
    unfold runJobsRow at h
    by_cases he : vacancies.isEmpty
    · rw [if_pos he] at h
      exact absurd h (by simp)
    · rw [if_neg he] at h
      injection h with h2
      injection h2 with h3 h4
      subst h3
      subst h4
      refine ⟨rfl, ?_⟩
      rw [List.length_map, List.length_pos]
      intro hnil
      exact he (by simp [hnil])
  · intro st l c h
    match st with
    | none => simp [jobNext] at h
    | some (jobs, c0) =>
      simp only [jobNext] at h
      split at h
      · exact absurd h (by simp)
      · split at h
        · exact absurd h (by simp)
        · rename_i hlt1 hlt2
          injection h with h2
          injection h2 with h3 h4
          subst h3
          subst h4
          omega

/-- Witness for C2: row creation from a one-element result set, and a
`job_next` advance over `[dict, non-dict, dict]` landing on index 2. -/
theorem pending_jobs_cursor_in_range_witness :
    ((0 : Nat) = 0 ∧ 0 < ([demoVacancy].map JEntry.dict).length) ∧
      2 < ([JEntry.dict demoVacancy, JEntry.nonDict, JEntry.dict demoVacancy] :
        List JEntry).length :=
  ⟨pending_jobs_cursor_in_range.1 [demoVacancy] ([demoVacancy].map JEntry.dict) 0 (by decide),
   pending_jobs_cursor_in_range.2
     (some ([JEntry.dict demoVacancy, JEntry.nonDict, JEntry.dict demoVacancy], 0))
     [JEntry.dict demoVacancy, JEntry.nonDict, JEntry.dict demoVacancy] 2 (by decide)⟩

/-- When every LLM call succeeds, the `start_auto` loop completes with one
generation and one submission call per posting, counting the successes. -/
theorem startAutoLoop_all_gen_ok (llm : String → Option String) (applyOk : String → Bool)
    (resume : String) (hllm : ∀ s, (llm s).isSome = true) (L : List Vacancy) :
    startAutoLoop llm applyOk resume L =
      (⟨L.map (fun v => if v.snippet ≠ "" then v.snippet else v.name),
        L.map (fun v => v.id),
        (L.filter (fun v => applyOk v.id)).length⟩, true) := by
  induction L with
  | nil => rfl
  | cons v rest ih =>
    have hs := hllm (coverPrompt (if v.snippet ≠ "" then v.snippet else v.name) resume)
    obtain ⟨t, ht⟩ := Option.isSome_iff_exists.mp hs
    have hgen : generate_cover_letter llm
        (if v.snippet ≠ "" then v.snippet else v.name) resume = some (pyStripStr t) := by
      unfold generate_cover_letter
      rw [ht]
      rfl
    simp only [startAutoLoop, hgen, ih]
    simp only [List.map_cons, List.filter_cons]
    by_cases ha : applyOk v.id
    · simp [ha, Nat.add_comm]
    · simp [ha]

/-- C1 (amended): only submission failures are caught and logged inside the
`start_auto` loop; when every cover-letter generation succeeds, the loop
runs to completion, each fetched posting (capped at 20) triggers exactly one
generation and one submission call, and one report is sent counting exactly
the successful submissions as N/20.  (A generation failure, by contrast,
aborts the batch — see the counterexample theorem.) -/
theorem start_auto_amended (llm : String → Option String) (applyOk : String → Bool)
    (resume : String) (fetched : List Vacancy)
    (hllm : ∀ s, (llm s).isSome = true) :
    (start_auto llm applyOk resume fetched).2
        = some (autoReport ((((fetch_vacancies fetched).take 20).filter
            (fun v => applyOk v.id)).length)) ∧
    (start_auto llm applyOk resume fetched).1.genCalls
        = ((fetch_vacancies fetched).take 20).map
            (fun v => if v.snippet ≠ "" then v.snippet else v.name) ∧
    (start_auto llm applyOk resume fetched).1.applyCalls
        = ((fetch_vacancies fetched).take 20).map (fun v => v.id) ∧
    (start_auto llm applyOk resume fetched).1.sent
        = (((fetch_vacancies fetched).take 20).filter (fun v => applyOk v.id)).length := by
  unfold start_auto
  rw [startAutoLoop_all_gen_ok llm applyOk resume hllm]
  exact ⟨rfl, rfl, rfl, rfl⟩

/-- Witness for C1's amended theorem: over 20 fetched postings with exactly
3 submission failures, the loop completes and the report says 17/20. -/
theorem start_auto_amended_witness :
    (start_auto (fun _ => some "letter") applyOkDemo "resume summary" autoVacs).2
        = some (autoReport ((((fetch_vacancies autoVacs).take 20).filter
            (fun v => applyOkDemo v.id)).length)) ∧
    (((fetch_vacancies autoVacs).take 20).filter (fun v => applyOkDemo v.id)).length = 17 ∧
    autoReport 17 = "🚀 Автоотклики отправлены: 17/20" :=
  ⟨(start_auto_amended (fun _ => some "letter") applyOkDemo "resume summary" autoVacs
      (fun _ => rfl)).1,
   by decide, by decide⟩

/-- Counterexample for C1 as stated: when the very first cover-letter
generation fails (the LLM oracle raises), the batch aborts — no report
message is sent, only one generation was attempted, and no submission call
was made for any of the 20 postings, contradicting "a failure in a single
posting's cover-letter generation ... is caught and logged, the loop
continues ... and after the loop one report message is sent". -/
theorem start_auto_counterexample :
    (start_auto (fun _ => none) (fun _ => true) "resume summary" autoVacs).2 = none ∧
    (start_auto (fun _ => none) (fun _ => true) "resume summary" autoVacs).1.genCalls.length
      = 1 ∧
    (start_auto (fun _ => none) (fun _ => true) "resume summary" autoVacs).1.applyCalls
      = [] := by
  refine ⟨by decide, by decide, by decide⟩

/-- C3 (amended): each of the four recognized commands (`/start`, `/jobs`,
`/menu`, `/settings`) resets the pending-field marker as its first settings
write, leaves `get_pending` absent afterwards, and never stores any text
under `region`, `salary` or `keyword`.  (An unrecognized `/`-prefixed text
is not a command and falls through to the pending-field logic — see the
counterexample theorem.) -/
theorem commands_reset_pending_first (tokenExists : Bool) (pending jobsPage : Option PyStr)
    (searchOk : Bool) (raw : PyStr)
    (hcmd : pyStrip raw = "/start".toList ∨ pyStrip raw = "/jobs".toList ∨
      pyStrip raw = "/menu".toList ∨ pyStrip raw = "/settings".toList) :
    (handleText tokenExists pending jobsPage searchOk raw).writes.head?
        = some ("pending", none) ∧
    finalPending pending (handleText tokenExists pending jobsPage searchOk raw).writes
        = none ∧
    (∀ k v, (k, some v) ∈ (handleText tokenExists pending jobsPage searchOk raw).writes →
      k ≠ "region" ∧ k ≠ "salary" ∧ k ≠ "keyword") := by
  rcases hcmd with h | h | h | h
  · refine ⟨?_, ?_, ?_⟩ <;> simp [handleText, handleTextCore, h, finalPending]
  · cases hnp : next_jobs_page jobsPage with
    | none =>
      refine ⟨?_, ?_, ?_⟩ <;> simp [handleText, handleTextCore, h, hnp, finalPending]
    | some pr =>
      by_cases hs : searchOk
      · refine ⟨?_, ?_, ?_⟩ <;> simp [handleText, handleTextCore, h, hnp, hs, finalPending]
      · refine ⟨?_, ?_, ?_⟩ <;> simp [handleText, handleTextCore, h, hnp, hs, finalPending]
  · refine ⟨?_, ?_, ?_⟩ <;> simp [handleText, handleTextCore, h, finalPending]
  · refine ⟨?_, ?_, ?_⟩ <;> simp [handleText, handleTextCore, h, finalPending]

/-- Witness for C3's amended theorem: `/menu` with a pending `region` marker
clears pending first and leaves it absent. -/
theorem commands_reset_pending_first_witness :
    (handleText true (some "region".toList) none true "/menu".toList).writes.head?
        = some ("pending", none) ∧
    finalPending (some "region".toList)
      (handleText true (some "region".toList) none true "/menu".toList).writes = none :=
  ⟨(commands_reset_pending_first true (some "region".toList) none true "/menu".toList
      (Or.inr (Or.inr (Or.inl (by decide))))).1,
   (commands_reset_pending_first true (some "region".toList) none true "/menu".toList
      (Or.inr (Or.inr (Or.inl (by decide))))).2.1⟩

/-- Counterexample for C3 as stated: the unrecognized command `/foo` matches
none of the four command branches and falls through to the pending-field
logic — with pending = region the text "/foo" is stored as the region
setting, and with pending = salary (non-digit text) the pending marker is
not cleared at all, so `get_pending` does not return absent. -/
theorem slash_text_stored_counterexample :
    (("region", some "/foo".toList) ∈
      (handleText true (some "region".toList) none true "/foo".toList).writes) ∧
    finalPending (some "salary".toList)
      (handleText true (some "salary".toList) none true "/foo".toList).writes
      = some "salary".toList := by
  refine ⟨by decide, by decide⟩

/-- An if-then-else whose branches both project to an ok result projects to
an ok result. -/
theorem resultOk_ite {α : Type} (proj : α → WebResult) (c : Prop) [Decidable c]
    (a b : α) (ha : resultOkProp (proj a)) (hb : resultOkProp (proj b)) :
    resultOkProp (proj (if c then a else b)) := by
  by_cases h : c
  · rwa [if_pos h]
  · rwa [if_neg h]

set_option maxHeartbeats 1000000 in
/-- Every result the callback dispatch can return is either a non-JSON
outcome or the literal `{"ok": true}`. -/
theorem handleCallback_resultOk (env : CbEnv) (data : PyStr) :
    resultOkProp (handleCallback env data).1 := by
  unfold handleCallback
  repeat' first
    | exact ⟨rfl, rfl⟩
    | exact trivial
    | apply resultOk_ite Prod.fst
    | split

set_option maxHeartbeats 1000000 in
/-- Every result the free-text branch can return is either a non-JSON
outcome or the literal `{"ok": true}`. -/
theorem handleText_resultOk (tokenExists : Bool) (pending jobsPage : Option PyStr)
    (searchOk : Bool) (raw : PyStr) :
    resultOkProp (handleText tokenExists pending jobsPage searchOk raw).resp := by
  unfold handleText handleTextCore
  repeat' first
    | exact ⟨rfl, rfl⟩
    | exact trivial
    | apply resultOk_ite TextOutcome.resp
    | split

/-- C4 (amended): a webhook request whose path token differs from the
configured bot token is rejected with 403 before any side effect (empty
effect trace, no user row inserted, no message sent); when the token
matches, any JSON body the handler returns is exactly `{"ok": true}` — but
updates matching no dispatch branch fall off the handler and produce a null
body, and branches hitting runtime errors surface as framework 5xx. -/
theorem webhook_responses (token botToken : String) (env : CbEnv) (tokenExists : Bool)
    (pending jobsPage : Option PyStr) (u : TgUpdate) :
    (token ≠ botToken →
      telegram_webhook token botToken env tokenExists pending jobsPage u
        = (.forbidden, [])) ∧
    (∀ k v, (telegram_webhook token botToken env tokenExists pending jobsPage u).1
        = .json k v → k = "ok" ∧ v = true) := by
  constructor
  · intro hne
    unfold telegram_webhook
    rw [if_pos hne]
  · intro k v h
    unfold telegram_webhook at h
    by_cases hne : token ≠ botToken
    · rw [if_pos hne] at h
      cases h
    · rw [if_neg hne] at h
      cases u with
      | callback data =>
        have hok := handleCallback_resultOk env data
        have h2 : (handleCallback env data).1 = .json k v := h
        rw [h2] at hok
        exact hok
      | message raw =>
        have hok := handleText_resultOk tokenExists pending jobsPage env.searchOk raw
        have h2 : (handleText tokenExists pending jobsPage env.searchOk raw).resp
            = .json k v := h
        rw [h2] at hok
        exact hok
      | noText => cases h

/-- Witness for C4's amended theorem: a mismatched token is rejected with no
effects, and `back_menu` with a matching token returns `{"ok": true}`. -/
theorem webhook_responses_witness :
    telegram_webhook "WRONG" "bot123" envDemo true none none (.callback "back_menu".toList)
        = (.forbidden, []) ∧ ("ok" = "ok" ∧ true = true) :=
  ⟨(webhook_responses "WRONG" "bot123" envDemo true none none
      (.callback "back_menu".toList)).1 (by decide),
   (webhook_responses "bot123" "bot123" envDemo true none none
      (.callback "back_menu".toList)).2 "ok" true (by decide)⟩

/-- Counterexample for C4 as stated: with a matching token, a callback whose
data matches no dispatch branch — and likewise a plain text message with no
command and no pending field — falls off the handler and yields a null body,
not the JSON object `{"ok": true}`. -/
theorem webhook_null_body_counterexample :
    (telegram_webhook "bot123" "bot123" envDemo true none none
        (.callback "no_such_button".toList)).1 = .empty ∧
    (telegram_webhook "bot123" "bot123" envDemo true none none
        (.message "hello".toList)).1 = .empty ∧
    WebResult.empty ≠ okJson := by
  refine ⟨by decide, by decide, by decide⟩

/-- Tag removal is the identity on text containing no `<`. -/
theorem stripHtmlAux_id (fuel : Nat) : ∀ s : PyStr, '<' ∉ s → stripHtmlAux fuel s = s := by
  induction fuel with
  | zero => intro s _; rfl
  | succ f ih =>
    intro s hs
    cases s with
    | nil => rfl
    | cons c rest =>
      have hc : ¬(c = '<') := by
        intro h
        exact hs (h ▸ List.mem_cons_self c rest)
      have hrest : '<' ∉ rest := fun h => hs (List.mem_cons_of_mem _ h)
      show stripHtmlAux (f + 1) (c :: rest) = c :: rest
      unfold stripHtmlAux
      rw [if_neg hc, ih rest hrest]

/-- Whitespace normalization is the identity on whitespace-free text. -/
theorem normWs_id (s : PyStr) (h : ∀ c ∈ s, c.isWhitespace = false) : normWs s = s := by
  induction s with
  | nil => rfl
  | cons c rest ih =>
    unfold normWs
    rw [List.map_cons]
    have hc := h c (List.mem_cons_self c rest)
    rw [if_neg (by simp [hc])]
    have := ih fun x hx => h x (List.mem_cons_of_mem _ hx)
    unfold normWs at this
    rw [this]

/-- takeWhile over a list satisfying the predicate everywhere is the list. -/
theorem takeWhile_all (p : Char → Bool) : ∀ s : PyStr, (∀ c ∈ s, p c = true) →
    s.takeWhile p = s := by
  intro s hs
  induction s with
  | nil => rfl
  | cons c rest ih =>
    rw [List.takeWhile_cons, hs c (List.mem_cons_self c rest)]
    simp only [ite_true]
    rw [ih fun x hx => hs x (List.mem_cons_of_mem _ hx)]

/-- A non-empty space-free text is a single textwrap chunk. -/
theorem chunkRuns_single (fuel : Nat) (c : Char) (rest : PyStr)
    (h : ∀ d ∈ c :: rest, ¬(d = ' ')) :
    chunkRuns (fuel + 1) (c :: rest) = [c :: rest] := by
  have hrun : (c :: rest).takeWhile (fun d => (d == ' ') == (c == ' ')) = c :: rest := by
    apply takeWhile_all
    intro d hd
    have hd2 : ¬(d = ' ') := h d hd
    have hc2 : ¬(c = ' ') := h c (List.mem_cons_self c rest)
    simp [hd2, hc2]
  have hnil : chunkRuns fuel [] = [] := by cases fuel <;> rfl
  unfold chunkRuns
  simp only [hrun, List.drop_length, hnil]

/-- The wrap loop ignores an empty chunk list. -/
theorem wrapChunksAux_nil (width fuel : Nat) (b : Bool) :
    wrapChunksAux width fuel [] b = [] := by
  cases fuel <;> rfl

/-- Filling a line with one chunk that fits takes it whole. -/
theorem fillLine_single_fits (w : PyStr) (h : w.length ≤ 60) :
    fillLine 60 [w] 0 = ([w], []) := by
  unfold fillLine
  rw [if_pos (by simpa using h)]
  rfl

/-- Filling a line with one over-long chunk takes nothing. -/
theorem fillLine_single_over (w : PyStr) (h : ¬(w.length ≤ 60)) :
    fillLine 60 [w] 0 = ([], [w]) := by
  unfold fillLine
  rw [if_neg (by simpa using h)]

/-- One wrap step on a single short non-space word emits it as the line. -/
theorem wrapChunksAux_single_fits (f : Nat) (w : PyStr) (b : Bool)
    (hsp : isSpaceChunk w = false) (hlen : w.length ≤ 60) :
    wrapChunksAux 60 (f + 1) [w] b = [w] := by
  cases w with
  | nil => simp [isSpaceChunk] at hsp
  | cons c rest =>
    unfold wrapChunksAux
    simp [hsp, fillLine_single_fits _ hlen, wrapChunksAux_nil]

/-- One wrap step on a single over-long non-space word emits its first 60
characters and continues with the remainder. -/
theorem wrapChunksAux_single_over (f : Nat) (w : PyStr) (b : Bool)
    (hsp : isSpaceChunk w = false) (hlen : ¬(w.length ≤ 60))
    (hsp60 : isSpaceChunk (w.take 60) = false) :
    wrapChunksAux 60 (f + 1) [w] b = w.take 60 :: wrapChunksAux 60 f [w.drop 60] false := by
  cases w with
  | nil => simp [isSpaceChunk] at hsp
  | cons c rest =>
    conv_lhs => unfold wrapChunksAux
    have hgt : 60 < rest.length + 1 := by
      simp only [List.length_cons] at hlen
      omega
    rw [List.take_succ_cons] at hsp60
    simp [hsp, fillLine_single_over _ hlen, hgt, hsp60]

/-- Wrapping a single space-free word cuts it into its 60-character pieces:
the emitted lines concatenate back to the word and use only its characters. -/
theorem wrap_single_word (fuel : Nat) : ∀ w : PyStr, ∀ b : Bool, w ≠ [] →
    (∀ c ∈ w, ¬(c = ' ')) → w.length + 1 ≤ fuel →
    (wrapChunksAux 60 fuel [w] b).flatten = w ∧
    (∀ l ∈ wrapChunksAux 60 fuel [w] b, ∀ c ∈ l, c ∈ w) := by
  induction fuel with
  | zero => intro w b hne _ hf; omega
  | succ f ih =>
    intro w b hne hns hf
    have hsp : isSpaceChunk w = false := by
      cases w with
      | nil => exact absurd rfl hne
      | cons c rest =>
        have := hns c (List.mem_cons_self c rest)
        simp [isSpaceChunk]
        exact fun h => absurd h this
    by_cases hlen : w.length ≤ 60
    · rw [wrapChunksAux_single_fits f w b hsp hlen]
      refine ⟨by simp, ?_⟩
      intro l hl c hc
      rw [List.mem_singleton] at hl
      exact hl ▸ hc
    · have hsp60 : isSpaceChunk (w.take 60) = false := by
        cases w with
        | nil => exact absurd rfl hne
        | cons c rest =>
          have := hns c (List.mem_cons_self c rest)
          simp [isSpaceChunk, List.take_cons]
          exact fun h => absurd h this
      rw [wrapChunksAux_single_over f w b hsp hlen hsp60]
      have hdne : w.drop 60 ≠ [] := by
        intro h
        have := congrArg List.length h
        simp at this
        omega
      have hdns : ∀ c ∈ w.drop 60, ¬(c = ' ') := fun c hc => hns c (List.drop_subset 60 w hc)
      have hdf : (w.drop 60).length + 1 ≤ f := by
        have := List.length_drop 60 w
        omega
      obtain ⟨hjoin, hmem⟩ := ih (w.drop 60) false hdne hdns hdf
      constructor
      · rw [List.flatten_cons, hjoin, List.take_append_drop]
      · intro l hl c hc
        rcases List.mem_cons.mp hl with h | h
        · exact List.take_subset 60 w (h ▸ hc)
        · exact List.drop_subset 60 w (hmem l h c hc)

/-- Every character of a `"\n"`-join is a newline or from one of the lines. -/
theorem mem_joinNl {c : Char} : ∀ L : List PyStr, c ∈ joinNl L →
    c = '\n' ∨ ∃ l ∈ L, c ∈ l := by
  intro L
  induction L with
  | nil => intro h; simp [joinNl] at h
  | cons w rest ih =>
    intro h
    cases rest with
    | nil =>
      right
      exact ⟨w, List.mem_singleton_self w, h⟩
    | cons v rest2 =>
      rw [show joinNl (w :: v :: rest2) = w ++ '\n' :: joinNl (v :: rest2) from rfl] at h
      rcases List.mem_append.mp h with h2 | h2
      · exact Or.inr ⟨w, List.mem_cons_self _ _, h2⟩
      · rcases List.mem_cons.mp h2 with h3 | h3
        · exact Or.inl h3
        · rcases ih h3 with h4 | ⟨l, hl, hcl⟩
          · exact Or.inl h4
          · exact Or.inr ⟨l, List.mem_cons_of_mem _ hl, hcl⟩

/-- Removing the newlines from a `"\n"`-join of newline-free lines restores
their concatenation. -/
theorem removeNewlines_joinNl : ∀ L : List PyStr, (∀ l ∈ L, ∀ c ∈ l, ¬(c = '\n')) →
    removeNewlines (joinNl L) = L.flatten := by
  intro L
  induction L with
  | nil => intro _; rfl
  | cons w rest ih =>
    intro h
    have hw : w.filter (fun c => c ≠ '\n') = w := by
      apply List.filter_eq_self.mpr
      intro c hc
      simp [h w (List.mem_cons_self w rest) c hc]
    cases rest with
    | nil =>
      show removeNewlines w = w ++ []
      unfold removeNewlines
      rw [hw, List.append_nil]
    | cons v rest2 =>
      have hrest : ∀ l ∈ v :: rest2, ∀ c ∈ l, ¬(c = '\n') :=
        fun l hl => h l (List.mem_cons_of_mem _ hl)
      have hx := ih hrest
      unfold removeNewlines at hx ⊢
      show (w ++ '\n' :: joinNl (v :: rest2)).filter (fun c => c ≠ '\n')
          = w ++ (v :: rest2).flatten
      rw [List.filter_append, hw, List.filter_cons]
      rw [if_neg (by simp)]
      rw [hx]

/-- Wrapping a run of `n ≥ 1` letters `a` cuts it into lines that
concatenate back to the run and contain only its characters. -/
theorem pyWrap_aChars (n : Nat) (hn : 1 ≤ n) :
    (pyWrap 60 (aChars n)).flatten = aChars n ∧
    (∀ l ∈ pyWrap 60 (aChars n), ∀ c ∈ l, c ∈ aChars n) := by
  have hns : ∀ d ∈ aChars n, ¬(d = ' ') := by
    intro d hd
    have hde := List.eq_of_mem_replicate hd
    simp [hde]
  have hnorm : normWs (aChars n) = aChars n := by
    apply normWs_id
    intro c hc
    have hce := List.eq_of_mem_replicate hc
    simp [hce]
  obtain ⟨m, rfl⟩ : ∃ m, n = m + 1 := ⟨n - 1, by omega⟩
  have hcons : aChars (m + 1) = 'a' :: aChars m := by
    simp [aChars, List.replicate_succ]
  have hlen : (aChars (m + 1)).length = m + 1 := by simp [aChars]
  have hchunks : chunkRuns (aChars (m + 1)).length (normWs (aChars (m + 1)))
      = [aChars (m + 1)] := by
    rw [hnorm, hlen]
    rw [hcons]
    exact chunkRuns_single m 'a' (aChars m) (hcons ▸ hns)
  have hne : aChars (m + 1) ≠ [] := by
    rw [hcons]
    exact List.cons_ne_nil _ _
  unfold pyWrap
  rw [hchunks]
  exact wrap_single_word ((aChars (m + 1)).length + [aChars (m + 1)].length + 1)
    (aChars (m + 1)) true hne hns (by simp only [List.length_singleton]; omega)

/-- The rendered description of 1500 letters: the wrap of the first 1200
letters plus the ellipsis marker. -/
theorem renderDescr_long :
    renderDescr (aChars 1500) = joinNl (pyWrap 60 (aChars 1200)) ++ ['…'] := by
  have hnl : '<' ∉ aChars 1500 := by
    intro h
    have := List.eq_of_mem_replicate h
    simp at this
  have hid : strip_html (aChars 1500) = aChars 1500 := stripHtmlAux_id _ _ hnl
  have htake : (aChars 1500).take 1200 = aChars 1200 := by
    unfold aChars
    rw [List.take_replicate, min_eq_left (by norm_num)]
  have hlen : (aChars 1500).length = 1500 := by
    unfold aChars
    rw [List.length_replicate]
  unfold renderDescr wrap_long
  rw [hid, htake, hlen]
  norm_num

/-- The rendered description of 900 letters: the wrap of the whole text, no
ellipsis. -/
theorem renderDescr_short :
    renderDescr (aChars 900) = joinNl (pyWrap 60 (aChars 900)) := by
  have hnl : '<' ∉ aChars 900 := by
    intro h
    have := List.eq_of_mem_replicate h
    simp at this
  have hid : strip_html (aChars 900) = aChars 900 := stripHtmlAux_id _ _ hnl
  have htake : (aChars 900).take 1200 = aChars 900 := by
    unfold aChars
    rw [List.take_replicate, min_eq_right (by norm_num)]
  have hlen : (aChars 900).length = 900 := by
    unfold aChars
    rw [List.length_replicate]
  unfold renderDescr wrap_long
  rw [hid, htake, hlen]
  norm_num

/-- C5: a 1500-letter plain-text description is rendered as exactly its
first 1200 characters (wrapped to 60-character lines) plus a trailing
ellipsis marker; a 900-letter description is rendered unmodified (up to the
wrapping newlines) with no ellipsis marker anywhere. -/
theorem descr_truncation :
    removeNewlines (renderDescr (aChars 1500)) = aChars 1200 ++ ['…'] ∧
    (renderDescr (aChars 1500)).getLast? = some '…' ∧
    removeNewlines (renderDescr (aChars 900)) = aChars 900 ∧
    '…' ∉ renderDescr (aChars 900) := by
  have h1200 := pyWrap_aChars 1200 (by omega)
  have h900 := pyWrap_aChars 900 (by omega)
  have hnl1200 : ∀ l ∈ pyWrap 60 (aChars 1200), ∀ c ∈ l, ¬(c = '\n') := by
    intro l hl c hc
    have hm := h1200.2 l hl c hc
    have := List.eq_of_mem_replicate hm
    simp [this]
  have hnl900 : ∀ l ∈ pyWrap 60 (aChars 900), ∀ c ∈ l, ¬(c = '\n') := by
    intro l hl c hc
    have hm := h900.2 l hl c hc
    have := List.eq_of_mem_replicate hm
    simp [this]
  refine ⟨?_, ?_, ?_, ?_⟩
  · rw [renderDescr_long]
    unfold removeNewlines
    rw [List.filter_append]
    have hj := removeNewlines_joinNl _ hnl1200
    unfold removeNewlines at hj
    rw [hj, h1200.1]
    simp
  · rw [renderDescr_long, List.getLast?_concat]
  · rw [renderDescr_short]
    have hj := removeNewlines_joinNl _ hnl900
    rw [hj, h900.1]
  · rw [renderDescr_short]
    intro h
    rcases mem_joinNl _ h with h2 | ⟨l, hl, hcl⟩
    · exact absurd h2 (by decide)
    · have hm := h900.2 l hl _ hcl
      have := List.eq_of_mem_replicate hm
      exact absurd this (by decide)

end AutoHH
